import Mathlib

/-!
Shallow embedding of the resilience layer of `raganything/bedrock`
(`cache.py`, `retry_handler.py`, `llm_provider.py`, `embedding_provider.py`).

Time (`time.time()`) is modelled as an explicit rational parameter, Python
float arithmetic as exact rational arithmetic, Python dicts as key-unique
association lists, and Python exceptions as an explicit error datatype.
-/

/-- Mirrors `CacheEntry` in `cache.py`: cached value, creation timestamp,
optional TTL and an access counter. -/
structure CacheEntry (V : Type) where
  data : V
  timestamp : ℚ
  ttl : Option ℚ
  access_count : Nat

/-- Mirrors `CacheEntry.is_expired`: `False` when `ttl is None`, otherwise
`time.time() - self.timestamp > self.ttl` with the current time explicit. -/
def CacheEntry.is_expired {V : Type} (e : CacheEntry V) (now : ℚ) : Bool :=
  match e.ttl with
  | none => false
  | some t => decide (now - e.timestamp > t)

/-- Mirrors `CacheEntry.access`: increment the access counter. -/
def CacheEntry.access {V : Type} (e : CacheEntry V) : CacheEntry V :=
  { e with access_count := e.access_count + 1 }

/-- Python-dict lookup on a key-unique association list (`d[k]` / `k in d`). -/
def dictLookup {K E : Type} [DecidableEq K] (k : K) : List (K × E) → Option E
  | [] => none
  | (k', e) :: rest => if k' = k then some e else dictLookup k rest

/-- Python-dict assignment `d[k] = e`: replace in place if present, else append. -/
def dictInsert {K E : Type} [DecidableEq K] (k : K) (e : E) : List (K × E) → List (K × E)
  | [] => [(k, e)]
  | (k', e') :: rest => if k' = k then (k, e) :: rest else (k', e') :: dictInsert k e rest

/-- Python-dict deletion `del d[k]`: drop the first binding of `k` (the only
one, since keys are unique). -/
def dictErase {K E : Type} [DecidableEq K] (k : K) : List (K × E) → List (K × E)
  | [] => []
  | (k', e) :: rest => if k' = k then rest else (k', e) :: dictErase k rest

/-- Mirrors the guarded `if key in lst: lst.remove(key)` pattern of `cache.py`
(`list.remove` drops the first occurrence). -/
def pyListRemove {K : Type} [DecidableEq K] (l : List K) (k : K) : List K :=
  if k ∈ l then l.erase k else l

/-- Mirrors `BedrockCache` state: capacity, default TTL, the key-to-entry
mapping and the recency list (most recently used at the tail). -/
structure BedrockCache (K V : Type) where
  max_size : Nat
  default_ttl : ℚ
  cache : List (K × CacheEntry V)
  access_order : List K

/-- The keys of the mapping, in dict order. -/
def cacheKeys {K V : Type} (c : BedrockCache K V) : List K :=
  c.cache.map Prod.fst

/-- Mirrors the `while` loop of `BedrockCache._evict_if_needed`: while the
mapping is over capacity, pop the head of the recency list and delete that key
from the mapping (guarded by `if lru_key in self.cache`); stop early if the
recency list empties. Returns the updated mapping and recency list. -/
def evictLoop {K V : Type} [DecidableEq K] (max_size : Nat) :
    List K → List (K × CacheEntry V) → List (K × CacheEntry V) × List K
  | [], cache => (cache, [])
  | lru :: rest, cache =>
    if cache.length > max_size then
      evictLoop max_size rest
        (if (dictLookup lru cache).isSome then dictErase lru cache else cache)
    else (cache, lru :: rest)

/-- Mirrors `BedrockCache.remove`: delete the key from the mapping and from
the recency list (both guarded by membership tests). -/
def BedrockCache.remove {K V : Type} [DecidableEq K] (c : BedrockCache K V) (key : K) :
    BedrockCache K V :=
  { c with
    cache := if (dictLookup key c.cache).isSome then dictErase key c.cache else c.cache
    access_order := pyListRemove c.access_order key }

/-- Mirrors `BedrockCache.clear`. -/
def BedrockCache.clear {K V : Type} (c : BedrockCache K V) : BedrockCache K V :=
  { c with cache := [], access_order := [] }

/-- The entry built by `BedrockCache.put`: `ttl` defaults to the cache's
default TTL when `None`, timestamp is the current time, access count 0. -/
def putEntry {V : Type} (default_ttl : ℚ) (data : V) (ttl : Option ℚ) (now : ℚ) :
    CacheEntry V :=
  ⟨data, now, some (match ttl with | none => default_ttl | some t => t), 0⟩

/-- Mirrors `BedrockCache.put`: default the TTL, store a fresh entry at the
current time, move the key to the most-recently-used end, then evict while
over capacity. -/
def BedrockCache.put {K V : Type} [DecidableEq K] (c : BedrockCache K V) (key : K)
    (data : V) (ttl : Option ℚ) (now : ℚ) : BedrockCache K V :=
  let entry : CacheEntry V := putEntry c.default_ttl data ttl now
  let cache1 := dictInsert key entry c.cache
  let ao1 := pyListRemove c.access_order key ++ [key]
  let res := evictLoop c.max_size ao1 cache1
  { c with cache := res.1, access_order := res.2 }

/-- Mirrors `BedrockCache.get`: absent key returns `None`; an expired entry is
removed and `None` returned; otherwise the access counter is incremented, the
key moved to the most-recently-used end, and the value returned. Returns the
result together with the updated cache. -/
def BedrockCache.get {K V : Type} [DecidableEq K] (c : BedrockCache K V) (key : K)
    (now : ℚ) : Option V × BedrockCache K V :=
  match dictLookup key c.cache with
  | none => (none, c)
  | some entry =>
    if entry.is_expired now then (none, c.remove key)
    else
      let cache1 := dictInsert key entry.access c.cache
      let ao1 := pyListRemove c.access_order key ++ [key]
      (some entry.data, { c with cache := cache1, access_order := ao1 })

/-- Mirrors `BedrockCache.cleanup_expired`: collect the expired keys, remove
each, and return how many were removed (with the updated cache). -/
def BedrockCache.cleanup_expired {K V : Type} [DecidableEq K] (c : BedrockCache K V)
    (now : ℚ) : Nat × BedrockCache K V :=
  let expired_keys := (c.cache.filter (fun p => p.2.is_expired now)).map Prod.fst
  (expired_keys.length, expired_keys.foldl (fun acc k => acc.remove k) c)

/-- A freshly constructed `BedrockCache` (empty mapping and recency list). -/
def BedrockCache.empty (K V : Type) (max_size : Nat) (default_ttl : ℚ) :
    BedrockCache K V :=
  ⟨max_size, default_ttl, [], []⟩

/-- Sequential `put` of a list of keys (same value, TTL and clock), as in the
spec's eviction scenario. -/
def BedrockCache.putSeq {K V : Type} [DecidableEq K] (c : BedrockCache K V)
    (ks : List K) (v : V) (ttl : Option ℚ) (now : ℚ) : BedrockCache K V :=
  ks.foldl (fun acc k => acc.put k v ttl now) c

/-- The `BedrockCache` data-model invariant stated by the spec: the recency
list is a permutation of the mapping's keys (which are unique), and the
mapping is within capacity. -/
def CacheInv {K V : Type} (c : BedrockCache K V) : Prop :=
  c.access_order.Perm (cacheKeys c) ∧ (cacheKeys c).Nodup ∧ c.cache.length ≤ c.max_size

/-! ### Association-list lemmas -/

theorem dictErase_map_fst {K E : Type} [DecidableEq K] (k : K) (d : List (K × E)) :
    (dictErase k d).map Prod.fst = (d.map Prod.fst).erase k := by
  induction d with
  | nil => rfl
  | cons p rest ih =>
    obtain ⟨k', e⟩ := p
    by_cases h : k' = k
    · subst h
      simp [dictErase, List.erase_cons]
    · simp [dictErase, h, List.erase_cons, ih]

theorem dictInsert_map_fst_of_mem {K E : Type} [DecidableEq K] (k : K) (e : E)
    (d : List (K × E)) (h : k ∈ d.map Prod.fst) :
    (dictInsert k e d).map Prod.fst = d.map Prod.fst := by
  induction d with
  | nil => simp at h
  | cons p rest ih =>
    obtain ⟨k', e'⟩ := p
    by_cases hk : k' = k
    · subst hk
      simp [dictInsert]
    · simp only [List.map_cons, List.mem_cons] at h
      rcases h with h | h
    
      · exact absurd h.symm hk
      · simp [dictInsert, hk, ih h]

theorem dictInsert_map_fst_of_not_mem {K E : Type} [DecidableEq K] (k : K) (e : E)
    (d : List (K × E)) (h : k ∉ d.map Prod.fst) :
    (dictInsert k e d).map Prod.fst = d.map Prod.fst ++ [k] := by
  induction d with
  | nil => rfl
  | cons p rest ih =>
    obtain ⟨k', e'⟩ := p
    simp only [List.map_cons, List.mem_cons] at h
    push_neg at h
    simp [dictInsert, Ne.symm h.1, ih h.2]

theorem dictLookup_isSome_iff {K E : Type} [DecidableEq K] (k : K) (d : List (K × E)) :
    (dictLookup k d).isSome = true ↔ k ∈ d.map Prod.fst := by
  induction d with
  | nil => simp [dictLookup]
  | cons p rest ih =>
    obtain ⟨k', e⟩ := p
    by_cases h : k' = k
    · subst h
      simp [dictLookup]
    · simp [dictLookup, h, ih, Ne.symm h]

theorem dictLookup_insert_self {K E : Type} [DecidableEq K] (k : K) (e : E)
    (d : List (K × E)) : dictLookup k (dictInsert k e d) = some e := by
  induction d with
  | nil => simp [dictInsert, dictLookup]
  | cons p rest ih =>
    obtain ⟨k', e'⟩ := p
    by_cases h : k' = k
    · subst h
      simp [dictInsert, dictLookup]
    · simp [dictInsert, dictLookup, h, ih]

theorem dictLookup_mem_of_eq_some {K E : Type} [DecidableEq K] {k : K} {e : E}
    {d : List (K × E)} (h : dictLookup k d = some e) : k ∈ d.map Prod.fst := by
  rw [← dictLookup_isSome_iff, h]
  rfl

theorem dictInsert_length_of_mem {K E : Type} [DecidableEq K] (k : K) (e : E)
    (d : List (K × E)) (h : k ∈ d.map Prod.fst) :
    (dictInsert k e d).length = d.length := by
  have := congrArg List.length (dictInsert_map_fst_of_mem k e d h)
  simpa using this

/-! ### Eviction-loop invariant -/

theorem evictLoop_inv {K V : Type} [DecidableEq K] (ms : Nat) (ao : List K)
    (cache : List (K × CacheEntry V))
    (hperm : ao.Perm (cache.map Prod.fst)) (hnd : (cache.map Prod.fst).Nodup) :
    (evictLoop ms ao cache).2.Perm ((evictLoop ms ao cache).1.map Prod.fst) ∧
      ((evictLoop ms ao cache).1.map Prod.fst).Nodup ∧
      (evictLoop ms ao cache).1.length ≤ ms := by
  induction ao generalizing cache with
  | nil =>
    have hkeys : cache.map Prod.fst = [] := (hperm.symm.eq_nil)
    have hcache : cache = [] := List.map_eq_nil_iff.mp hkeys
    subst hcache
    simp [evictLoop]
  | cons lru rest ih =>
    by_cases hlen : cache.length > ms
    · have hmem : lru ∈ cache.map Prod.fst := hperm.mem_iff.mp (List.mem_cons_self _ _)
      have hsome : (dictLookup lru cache).isSome = true :=
        (dictLookup_isSome_iff lru cache).mpr hmem
      have hstep : evictLoop ms (lru :: rest) cache =
          evictLoop ms rest (dictErase lru cache) := by
        simp [evictLoop, hlen, hsome]
      rw [hstep]
      have hkeys' : (dictErase lru cache).map Prod.fst =
          (cache.map Prod.fst).erase lru := dictErase_map_fst lru cache
      have hperm' : rest.Perm ((dictErase lru cache).map Prod.fst) := by
        rw [hkeys']
        have h1 : ((lru :: rest).erase lru).Perm ((cache.map Prod.fst).erase lru) :=
          hperm.erase lru
        simpa using h1
      have hnd' : ((dictErase lru cache).map Prod.fst).Nodup := by
        rw [hkeys']
        exact hnd.erase lru
      exact ih (dictErase lru cache) hperm' hnd'
    · have hstep : evictLoop ms (lru :: rest) cache = (cache, lru :: rest) := by
        simp [evictLoop, hlen]
      rw [hstep]
      exact ⟨hperm, hnd, by simpa using hlen⟩

/-! ### Invariant preservation for each mutating cache operation -/

theorem CacheInv.put {K V : Type} [DecidableEq K] {c : BedrockCache K V}
    (h : CacheInv c) (key : K) (v : V) (ttl : Option ℚ) (now : ℚ) :
    CacheInv (c.put key v ttl now) := by
  obtain ⟨hperm, hnd, _⟩ := h
  unfold BedrockCache.put
  set entry : CacheEntry V := putEntry c.default_ttl v ttl now with hentry
  by_cases hmem : key ∈ cacheKeys c
  · have hkeys1 : (dictInsert key entry c.cache).map Prod.fst = cacheKeys c :=
      dictInsert_map_fst_of_mem key entry c.cache hmem
    have hkeymem : key ∈ c.access_order := hperm.mem_iff.mpr hmem
    have hao1 : pyListRemove c.access_order key ++ [key] =
        c.access_order.erase key ++ [key] := by
      simp [pyListRemove, hkeymem]
    have hperm1 : (pyListRemove c.access_order key ++ [key]).Perm
        ((dictInsert key entry c.cache).map Prod.fst) := by
      rw [hao1, hkeys1]
      have h2 : (c.access_order.erase key ++ [key]).Perm
          (key :: c.access_order.erase key) := List.perm_append_singleton key _
      have h3 : (key :: c.access_order.erase key).Perm c.access_order :=
        (List.perm_cons_erase hkeymem).symm
      exact h2.trans (h3.trans hperm)
    have hnd1 : ((dictInsert key entry c.cache).map Prod.fst).Nodup := by
      rw [hkeys1]; exact hnd
    have := evictLoop_inv (V := V) c.max_size
      (pyListRemove c.access_order key ++ [key]) (dictInsert key entry c.cache)
      hperm1 hnd1
    exact ⟨this.1, this.2.1, this.2.2⟩
  · have hkeys1 : (dictInsert key entry c.cache).map Prod.fst = cacheKeys c ++ [key] :=
      dictInsert_map_fst_of_not_mem key entry c.cache hmem
    have hkeymem : key ∉ c.access_order := fun hx => hmem (hperm.mem_iff.mp hx)
    have hao1 : pyListRemove c.access_order key ++ [key] = c.access_order ++ [key] := by
      simp [pyListRemove, hkeymem]
    have hperm1 : (pyListRemove c.access_order key ++ [key]).Perm
        ((dictInsert key entry c.cache).map Prod.fst) := by
      rw [hao1, hkeys1]
      exact hperm.append_right [key]
    have hnd1 : ((dictInsert key entry c.cache).map Prod.fst).Nodup := by
      rw [hkeys1]
      simp [List.nodup_append, hnd, hmem]
    have := evictLoop_inv (V := V) c.max_size
      (pyListRemove c.access_order key ++ [key]) (dictInsert key entry c.cache)
      hperm1 hnd1
    exact ⟨this.1, this.2.1, this.2.2⟩

theorem CacheInv.remove {K V : Type} [DecidableEq K] {c : BedrockCache K V}
    (h : CacheInv c) (key : K) : CacheInv (c.remove key) := by
  obtain ⟨hperm, hnd, hsize⟩ := h
  unfold BedrockCache.remove
  by_cases hmem : key ∈ cacheKeys c
  · have hsome : (dictLookup key c.cache).isSome = true :=
      (dictLookup_isSome_iff key c.cache).mpr hmem
    have hkeymem : key ∈ c.access_order := hperm.mem_iff.mpr hmem
    refine ⟨?_, ?_, ?_⟩
    · simp only [CacheInv, cacheKeys, hsome, if_pos, pyListRemove, hkeymem]
      rw [dictErase_map_fst]
      exact hperm.erase key
    · simp only [cacheKeys, hsome, if_pos]
      rw [dictErase_map_fst]
      exact hnd.erase key
    · simp only [hsome, if_pos]
      calc (dictErase key c.cache).length
          = ((dictErase key c.cache).map Prod.fst).length := by simp
        _ = ((c.cache.map Prod.fst).erase key).length := by rw [dictErase_map_fst]
        _ ≤ (c.cache.map Prod.fst).length := (List.erase_sublist _ _).length_le
        _ = c.cache.length := by simp
        _ ≤ c.max_size := hsize
  · have hsome : (dictLookup key c.cache).isSome = false := by
      rw [Bool.eq_false_iff]
      intro hx
      exact hmem ((dictLookup_isSome_iff key c.cache).mp hx)
    have hkeymem : key ∉ c.access_order := fun hx => hmem (hperm.mem_iff.mp hx)
    simp only [hsome, Bool.false_eq_true, if_neg, pyListRemove, hkeymem]
    exact ⟨by simpa [cacheKeys] using hperm, hnd, hsize⟩

theorem CacheInv.clear {K V : Type} (c : BedrockCache K V) : CacheInv c.clear := by
  simp [CacheInv, BedrockCache.clear, cacheKeys]

theorem CacheInv.get {K V : Type} [DecidableEq K] {c : BedrockCache K V}
    (h : CacheInv c) (key : K) (now : ℚ) : CacheInv (c.get key now).2 := by
  obtain ⟨hperm, hnd, hsize⟩ := h
  unfold BedrockCache.get
  cases hl : dictLookup key c.cache with
  | none => exact ⟨hperm, hnd, hsize⟩
  | some entry =>
    dsimp only
    by_cases hexp : entry.is_expired now
    · rw [if_pos hexp]
      exact CacheInv.remove ⟨hperm, hnd, hsize⟩ key
    · rw [if_neg hexp]
      have hmem : key ∈ cacheKeys c := dictLookup_mem_of_eq_some hl
      have hkeys1 : (dictInsert key entry.access c.cache).map Prod.fst = cacheKeys c :=
        dictInsert_map_fst_of_mem key _ c.cache hmem
      have hkeymem : key ∈ c.access_order := hperm.mem_iff.mpr hmem
      refine ⟨?_, ?_, ?_⟩
      · simp only [cacheKeys, hkeys1, pyListRemove, hkeymem, if_pos]
        have h2 : (c.access_order.erase key ++ [key]).Perm
            (key :: c.access_order.erase key) := List.perm_append_singleton key _
        have h3 : (key :: c.access_order.erase key).Perm c.access_order :=
          (List.perm_cons_erase hkeymem).symm
        exact h2.trans (h3.trans hperm)
      · simpa [cacheKeys, hkeys1] using hnd
      · simpa [dictInsert_length_of_mem key entry.access c.cache hmem] using hsize

theorem CacheInv.cleanup_expired {K V : Type} [DecidableEq K] {c : BedrockCache K V}
    (h : CacheInv c) (now : ℚ) : CacheInv (c.cleanup_expired now).2 := by
  unfold BedrockCache.cleanup_expired
  generalize (c.cache.filter (fun p => p.2.is_expired now)).map Prod.fst = l
  induction l generalizing c with
  | nil => exact h
  | cons k rest ih => exact ih (CacheInv.remove h k)

/-! ### Exact LRU behaviour under sequential fresh `put`s -/

theorem evictLoop_aligned {K V : Type} [DecidableEq K] (ms : Nat) (ao : List K)
    (cache : List (K × CacheEntry V)) (halign : cache.map Prod.fst = ao) :
    (evictLoop ms ao cache).1.map Prod.fst = (evictLoop ms ao cache).2 ∧
      (evictLoop ms ao cache).2 = ao.drop (ao.length - ms) := by
  induction ao generalizing cache with
  | nil =>
    have hcache : cache = [] := List.map_eq_nil_iff.mp halign
    subst hcache
    simp [evictLoop]
  | cons lru rest ih =>
    cases cache with
    | nil => simp at halign
    | cons p ct =>
      obtain ⟨k0, e0⟩ := p
      simp only [List.map_cons, List.cons.injEq] at halign
      obtain ⟨hk0, hct⟩ := halign
      subst hk0
      have hctlen : ct.length = rest.length := by
        have := congrArg List.length hct
        simpa using this
      by_cases hlen : ((k0, e0) :: ct).length > ms
      · have herase : dictErase k0 ((k0, e0) :: ct) = ct := by
          simp [dictErase]
        have hsome : (dictLookup k0 ((k0, e0) :: ct)).isSome = true := by
          simp [dictLookup]
        have hstep : evictLoop ms (k0 :: rest) ((k0, e0) :: ct) =
            evictLoop ms rest ct := by
          have hunfold : evictLoop ms (k0 :: rest) ((k0, e0) :: ct) =
              if ((k0, e0) :: ct).length > ms then
                evictLoop ms rest
                  (if (dictLookup k0 ((k0, e0) :: ct)).isSome then
                    dictErase k0 ((k0, e0) :: ct) else (k0, e0) :: ct)
              else ((k0, e0) :: ct, k0 :: rest) := rfl
          rw [hunfold, if_pos hlen, if_pos hsome, herase]
        rw [hstep]
        obtain ⟨ha, hb⟩ := ih ct hct
        refine ⟨ha, ?_⟩
        rw [hb]
        have hn : (k0 :: rest).length - ms = (rest.length - ms) + 1 := by
          simp only [List.length_cons] at hlen ⊢
          omega
        rw [hn, List.drop_succ_cons]
      · have hstep : evictLoop ms (k0 :: rest) ((k0, e0) :: ct) =
            ((k0, e0) :: ct, k0 :: rest) := by
          have hunfold : evictLoop ms (k0 :: rest) ((k0, e0) :: ct) =
              if ((k0, e0) :: ct).length > ms then
                evictLoop ms rest
                  (if (dictLookup k0 ((k0, e0) :: ct)).isSome then
                    dictErase k0 ((k0, e0) :: ct) else (k0, e0) :: ct)
              else ((k0, e0) :: ct, k0 :: rest) := rfl
          rw [hunfold, if_neg hlen]
        rw [hstep]
        have hzero : rest.length + 1 - ms = 0 := by
          simp only [List.length_cons] at hlen
          omega
        simp [hct, hzero]

theorem put_fresh_aligned {K V : Type} [DecidableEq K] (c : BedrockCache K V)
    (key : K) (v : V) (ttl : Option ℚ) (now : ℚ)
    (halign : cacheKeys c = c.access_order) (hfresh : key ∉ c.access_order) :
    cacheKeys (c.put key v ttl now) = (c.put key v ttl now).access_order ∧
      (c.put key v ttl now).access_order =
        (c.access_order ++ [key]).drop ((c.access_order.length + 1) - c.max_size) ∧
      (c.put key v ttl now).max_size = c.max_size ∧
      (c.put key v ttl now).default_ttl = c.default_ttl := by
  have hmem : key ∉ cacheKeys c := by rw [halign]; exact hfresh
  have hao1 : pyListRemove c.access_order key ++ [key] = c.access_order ++ [key] := by
    simp [pyListRemove, hfresh]
  have hkeys1 : (dictInsert key (putEntry c.default_ttl v ttl now) c.cache).map Prod.fst =
      c.access_order ++ [key] := by
    rw [dictInsert_map_fst_of_not_mem _ _ _ hmem]
    rw [show c.cache.map Prod.fst = cacheKeys c from rfl, halign]
  obtain ⟨ha, hb⟩ := evictLoop_aligned c.max_size (c.access_order ++ [key])
    (dictInsert key (putEntry c.default_ttl v ttl now) c.cache) hkeys1
  have hb' : (evictLoop c.max_size (c.access_order ++ [key])
      (dictInsert key (putEntry c.default_ttl v ttl now) c.cache)).2 =
      (c.access_order ++ [key]).drop ((c.access_order.length + 1) - c.max_size) := by
    rw [hb]
    simp
  simp only [BedrockCache.put, hao1]
  refine ⟨ha, hb', ?_, ?_⟩ <;> trivial

theorem putSeq_aligned {K V : Type} [DecidableEq K] (c : BedrockCache K V)
    (ks : List K) (v : V) (ttl : Option ℚ) (now : ℚ)
    (halign : cacheKeys c = c.access_order)
    (hnd : (c.access_order ++ ks).Nodup)
    (hlen : c.access_order.length ≤ c.max_size) :
    cacheKeys (c.putSeq ks v ttl now) = (c.putSeq ks v ttl now).access_order ∧
      (c.putSeq ks v ttl now).access_order =
        (c.access_order ++ ks).drop ((c.access_order.length + ks.length) - c.max_size) ∧
      (c.putSeq ks v ttl now).max_size = c.max_size := by
  induction ks generalizing c with
  | nil =>
    refine ⟨halign, ?_, rfl⟩
    have h0 : c.access_order.length - c.max_size = 0 := by omega
    simp [BedrockCache.putSeq, h0]
  | cons k rest ih =>
    have hfresh : k ∉ c.access_order := by
      rw [List.nodup_append] at hnd
      exact fun hx => hnd.2.2 hx (List.mem_cons_self k rest)
    obtain ⟨ha1, ha2, ha3, _⟩ := put_fresh_aligned c k v ttl now halign hfresh
    set c1 := c.put k v ttl now with hc1
    have hstep : c.putSeq (k :: rest) v ttl now = c1.putSeq rest v ttl now := rfl
    rw [hstep]
    have hlen1 : c1.access_order.length =
        (c.access_order.length + 1) - ((c.access_order.length + 1) - c.max_size) := by
      rw [ha2]
      simp
    have hsub : (c1.access_order ++ rest).Sublist (c.access_order ++ (k :: rest)) := by
      have h1 : c1.access_order.Sublist (c.access_order ++ [k]) := by
        rw [ha2]; exact List.drop_sublist _ _
      have h2 : (c1.access_order ++ rest).Sublist ((c.access_order ++ [k]) ++ rest) :=
        h1.append_right rest
      simpa [List.append_assoc] using h2
    have hnd1 : (c1.access_order ++ rest).Nodup := hnd.sublist hsub
    have hlen1' : c1.access_order.length ≤ c1.max_size := by
      rw [ha3, hlen1]
      omega
    obtain ⟨hb1, hb2, hb3⟩ := ih c1 ha1 hnd1 hlen1'
    refine ⟨hb1, ?_, by rw [hb3, ha3]⟩
    have hle : (c.access_order.length + 1) - c.max_size ≤ (c.access_order ++ [k]).length := by
      simp only [List.length_append, List.length_cons, List.length_nil]
      omega
    have hc1app : c1.access_order ++ rest =
        ((c.access_order ++ [k]) ++ rest).drop ((c.access_order.length + 1) - c.max_size) := by
      rw [List.drop_append_of_le_length hle, ha2]
    rw [hb2, ha3, hlen1, hc1app, List.drop_drop, List.append_assoc, List.singleton_append]
    congr 1
    simp only [List.length_cons]
    omega

/-- C1: after each mutating operation (`put`, `get`, `remove`, `clear`,
`cleanup_expired`) the cache invariant holds (the recency list is a
permutation of the mapping's keys and the mapping never exceeds `max_size`),
and sequential `put` of `max_size + N` distinct keys into a fresh cache keeps
exactly the last `max_size` keys, evicting the `N` least recently used
(first-inserted) ones. -/
theorem C1_cache_invariant_and_lru_eviction {K V : Type} [DecidableEq K]
    (c : BedrockCache K V) (hc : CacheInv c)
    (key : K) (v : V) (ttl : Option ℚ) (now : ℚ)
    (ms N : Nat) (dttl : ℚ) (ks : List K) (hks : ks.Nodup)
    (hlen : ks.length = ms + N) :
    CacheInv (c.put key v ttl now) ∧
      CacheInv (c.get key now).2 ∧
      CacheInv (c.remove key) ∧
      CacheInv c.clear ∧
      CacheInv (c.cleanup_expired now).2 ∧
      cacheKeys ((BedrockCache.empty K V ms dttl).putSeq ks v ttl now) = ks.drop N ∧
      ((BedrockCache.empty K V ms dttl).putSeq ks v ttl now).access_order = ks.drop N ∧
      ∀ a ∈ ks.take N, a ∉ cacheKeys ((BedrockCache.empty K V ms dttl).putSeq ks v ttl now) := by
  have hempty_align : cacheKeys (BedrockCache.empty K V ms dttl) =
      (BedrockCache.empty K V ms dttl).access_order := rfl
  have hempty_nd : ((BedrockCache.empty K V ms dttl).access_order ++ ks).Nodup := by
    simpa [BedrockCache.empty] using hks
  have hempty_len : (BedrockCache.empty K V ms dttl).access_order.length ≤
      (BedrockCache.empty K V ms dttl).max_size := by
    simp [BedrockCache.empty]
  obtain ⟨h1, h2, _⟩ :=
    putSeq_aligned (BedrockCache.empty K V ms dttl) ks v ttl now
      hempty_align hempty_nd hempty_len
  have hdropN : ((BedrockCache.empty K V ms dttl).access_order ++ ks).drop
      (((BedrockCache.empty K V ms dttl).access_order.length + ks.length) -
        (BedrockCache.empty K V ms dttl).max_size) = ks.drop N := by
    show (([] : List K) ++ ks).drop ((([] : List K).length + ks.length) - ms) = ks.drop N
    simp only [List.nil_append, List.length_nil, Nat.zero_add]
    congr 1
    omega
  have hao : ((BedrockCache.empty K V ms dttl).putSeq ks v ttl now).access_order =
      ks.drop N := h2.trans hdropN
  have hkeys : cacheKeys ((BedrockCache.empty K V ms dttl).putSeq ks v ttl now) =
      ks.drop N := h1.trans hao
  refine ⟨hc.put key v ttl now, hc.get key now, hc.remove key, CacheInv.clear c,
    hc.cleanup_expired now, hkeys, hao, ?_⟩
  intro a hmem hcontra
  rw [hkeys] at hcontra
  exact (List.disjoint_take_drop hks (le_refl N)) hmem hcontra

/-- Closed instantiation of `C1_cache_invariant_and_lru_eviction`:
`max_size = 2`, keys `[10, 11, 12]`, `N = 1`. -/
theorem C1_witness :
    CacheInv ((BedrockCache.empty ℕ ℕ 2 1).put 0 5 none 0) ∧
      CacheInv (((BedrockCache.empty ℕ ℕ 2 1)).get 0 0).2 ∧
      CacheInv ((BedrockCache.empty ℕ ℕ 2 1).remove 0) ∧
      CacheInv (BedrockCache.empty ℕ ℕ 2 1).clear ∧
      CacheInv ((BedrockCache.empty ℕ ℕ 2 1).cleanup_expired 0).2 ∧
      cacheKeys ((BedrockCache.empty ℕ ℕ 2 1).putSeq [10, 11, 12] 5 none 0) =
        ([10, 11, 12] : List ℕ).drop 1 ∧
      ((BedrockCache.empty ℕ ℕ 2 1).putSeq [10, 11, 12] 5 none 0).access_order =
        ([10, 11, 12] : List ℕ).drop 1 ∧
      ∀ a ∈ ([10, 11, 12] : List ℕ).take 1,
        a ∉ cacheKeys ((BedrockCache.empty ℕ ℕ 2 1).putSeq [10, 11, 12] 5 none 0) :=
  C1_cache_invariant_and_lru_eviction (BedrockCache.empty ℕ ℕ 2 1)
    ⟨by decide, by decide, by decide⟩ 0 5 none 0 2 1 1 [10, 11, 12]
    (by decide) (by decide)

/-! ### `put` followed by `get` (TTL semantics) -/

theorem dictLookup_erase_ne {K E : Type} [DecidableEq K] {h k : K} (hne : h ≠ k)
    (d : List (K × E)) : dictLookup k (dictErase h d) = dictLookup k d := by
  induction d with
  | nil => rfl
  | cons p rest ih =>
    obtain ⟨k', e⟩ := p
    by_cases hk : k' = h
    · subst hk
      simp [dictErase, dictLookup, hne]
    · by_cases hk2 : k' = k
      · subst hk2
        simp [dictErase, dictLookup, hk]
      · simp [dictErase, dictLookup, hk, hk2, ih]

theorem evictLoop_lookup_last {K V : Type} [DecidableEq K] (ms : Nat) (hms : 0 < ms)
    (l : List K) (k : K) (cache : List (K × CacheEntry V))
    (hperm : (l ++ [k]).Perm (cache.map Prod.fst))
    (hnd : (cache.map Prod.fst).Nodup) :
    dictLookup k (evictLoop ms (l ++ [k]) cache).1 = dictLookup k cache := by
  induction l generalizing cache with
  | nil =>
    have hlen : cache.length = 1 := by
      have := hperm.length_eq
      simpa using this.symm
    have hnotgt : ¬ cache.length > ms := by omega
    have hunfold : evictLoop ms ([] ++ [k]) cache =
        if cache.length > ms then
          evictLoop ms []
            (if (dictLookup k cache).isSome then dictErase k cache else cache)
        else (cache, [k]) := rfl
    rw [hunfold, if_neg hnotgt]
  | cons h t ih =>
    have hndao : ((h :: t) ++ [k]).Nodup := hperm.nodup_iff.mpr hnd
    have hne : h ≠ k := by
      have : h ∉ t ++ [k] := (List.nodup_cons.mp (by simpa using hndao)).1
      simp only [List.mem_append, List.mem_singleton] at this
      push_neg at this
      exact this.2
    by_cases hlen : cache.length > ms
    · have hmem : h ∈ cache.map Prod.fst := hperm.mem_iff.mp (List.mem_cons_self _ _)
      have hsome : (dictLookup h cache).isSome = true :=
        (dictLookup_isSome_iff h cache).mpr hmem
      have hunfold : evictLoop ms ((h :: t) ++ [k]) cache =
          if cache.length > ms then
            evictLoop ms (t ++ [k])
              (if (dictLookup h cache).isSome then dictErase h cache else cache)
          else (cache, (h :: t) ++ [k]) := rfl
      rw [hunfold, if_pos hlen, if_pos hsome]
      have hkeys' : (dictErase h cache).map Prod.fst = (cache.map Prod.fst).erase h :=
        dictErase_map_fst h cache
      have hperm' : (t ++ [k]).Perm ((dictErase h cache).map Prod.fst) := by
        rw [hkeys']
        have h1 : (((h :: t) ++ [k]).erase h).Perm ((cache.map Prod.fst).erase h) :=
          hperm.erase h
        simpa using h1
      have hnd' : ((dictErase h cache).map Prod.fst).Nodup := by
        rw [hkeys']
        exact hnd.erase h
      rw [ih (dictErase h cache) hperm' hnd']
      exact dictLookup_erase_ne hne cache
    · have hunfold : evictLoop ms ((h :: t) ++ [k]) cache =
          if cache.length > ms then
            evictLoop ms (t ++ [k])
              (if (dictLookup h cache).isSome then dictErase h cache else cache)
          else (cache, (h :: t) ++ [k]) := rfl
      rw [hunfold, if_neg hlen]

theorem put_lookup_self {K V : Type} [DecidableEq K] (c : BedrockCache K V)
    (hc : CacheInv c) (hms : 0 < c.max_size) (k : K) (v : V) (ttl : Option ℚ)
    (now : ℚ) :
    dictLookup k (c.put k v ttl now).cache = some (putEntry c.default_ttl v ttl now) := by
  obtain ⟨hperm, hnd, _⟩ := hc
  have hlookup1 : dictLookup k (dictInsert k (putEntry c.default_ttl v ttl now) c.cache) =
      some (putEntry c.default_ttl v ttl now) := dictLookup_insert_self _ _ _
  by_cases hmem : k ∈ cacheKeys c
  · have hkeys1 : (dictInsert k (putEntry c.default_ttl v ttl now) c.cache).map Prod.fst =
        cacheKeys c := dictInsert_map_fst_of_mem _ _ _ hmem
    have hkeymem : k ∈ c.access_order := hperm.mem_iff.mpr hmem
    have hperm1 : (pyListRemove c.access_order k ++ [k]).Perm
        ((dictInsert k (putEntry c.default_ttl v ttl now) c.cache).map Prod.fst) := by
      rw [hkeys1]
      have hao1 : pyListRemove c.access_order k = c.access_order.erase k := by
        simp [pyListRemove, hkeymem]
      rw [hao1]
      have h2 : (c.access_order.erase k ++ [k]).Perm (k :: c.access_order.erase k) :=
        List.perm_append_singleton k _
      have h3 : (k :: c.access_order.erase k).Perm c.access_order :=
        (List.perm_cons_erase hkeymem).symm
      exact h2.trans (h3.trans hperm)
    have hnd1 : ((dictInsert k (putEntry c.default_ttl v ttl now) c.cache).map
        Prod.fst).Nodup := by
      rw [hkeys1]; exact hnd
    have := evictLoop_lookup_last c.max_size hms (pyListRemove c.access_order k) k
      (dictInsert k (putEntry c.default_ttl v ttl now) c.cache) hperm1 hnd1
    simp only [BedrockCache.put]
    rw [this, hlookup1]
  · have hkeys1 : (dictInsert k (putEntry c.default_ttl v ttl now) c.cache).map Prod.fst =
        cacheKeys c ++ [k] := dictInsert_map_fst_of_not_mem _ _ _ hmem
    have hkeymem : k ∉ c.access_order := fun hx => hmem (hperm.mem_iff.mp hx)
    have hperm1 : (pyListRemove c.access_order k ++ [k]).Perm
        ((dictInsert k (putEntry c.default_ttl v ttl now) c.cache).map Prod.fst) := by
      rw [hkeys1]
      have hao1 : pyListRemove c.access_order k = c.access_order := by
        simp [pyListRemove, hkeymem]
      rw [hao1]
      exact hperm.append_right [k]
    have hnd1 : ((dictInsert k (putEntry c.default_ttl v ttl now) c.cache).map
        Prod.fst).Nodup := by
      rw [hkeys1]
      simp [List.nodup_append, hnd, hmem]
    have := evictLoop_lookup_last c.max_size hms (pyListRemove c.access_order k) k
      (dictInsert k (putEntry c.default_ttl v ttl now) c.cache) hperm1 hnd1
    simp only [BedrockCache.put]
    rw [this, hlookup1]

theorem nodup_not_mem_erase {K : Type} [DecidableEq K] {l : List K} (h : l.Nodup)
    (a : K) : a ∉ l.erase a := by
  intro hmem
  have h1 : (l.erase a).count a = l.count a - 1 := List.count_erase_self a l
  have h2 : l.count a ≤ 1 := List.nodup_iff_count_le_one.mp h a
  have h3 : 0 < (l.erase a).count a := List.count_pos_iff.mpr hmem
  omega

/-- C2: `put(k, v, ttl)` then `get(k)`: before the TTL elapses
(`now - createdAt ≤ ttl`) the stored value comes back, the entry's access
counter is incremented (0 to 1) and `k` sits at the most-recently-used end of
the recency list; once `now - createdAt > ttl` the `get` returns absent and
the entry is removed from the mapping. -/
theorem C2_put_get_ttl {K V : Type} [DecidableEq K] (c : BedrockCache K V)
    (hc : CacheInv c) (hms : 0 < c.max_size) (k : K) (v : V) (ttl t0 t1 : ℚ) :
    ((c.put k v (some ttl) t0).get k t1).1 =
        (if t1 - t0 > ttl then none else some v) ∧
      (¬ t1 - t0 > ttl →
        dictLookup k ((c.put k v (some ttl) t0).get k t1).2.cache =
            some ⟨v, t0, some ttl, 1⟩ ∧
          ((c.put k v (some ttl) t0).get k t1).2.access_order.getLast? = some k) ∧
      (t1 - t0 > ttl → k ∉ cacheKeys ((c.put k v (some ttl) t0).get k t1).2) := by
  have hlk : dictLookup k (c.put k v (some ttl) t0).cache =
      some (putEntry c.default_ttl v (some ttl) t0) :=
    put_lookup_self c hc hms k v (some ttl) t0
  have hinv1 : CacheInv (c.put k v (some ttl) t0) := hc.put k v (some ttl) t0
  set c1 := c.put k v (some ttl) t0 with hc1
  have hget : c1.get k t1 =
      if (putEntry c.default_ttl v (some ttl) t0 : CacheEntry V).is_expired t1 then
        (none, c1.remove k)
      else
        (some v,
          { c1 with
            cache := dictInsert k (⟨v, t0, some ttl, 1⟩ : CacheEntry V) c1.cache
            access_order := pyListRemove c1.access_order k ++ [k] }) := by
    simp only [BedrockCache.get, hlk]
    rfl
  rw [hget]
  by_cases hexp : t1 - t0 > ttl
  · have hE : (putEntry c.default_ttl v (some ttl) t0 : CacheEntry V).is_expired t1 =
        true := by
      simp [putEntry, CacheEntry.is_expired, hexp]
    rw [if_pos hE]
    have hrm : cacheKeys (c1.remove k) = (cacheKeys c1).erase k := by
      simp only [BedrockCache.remove, cacheKeys, hlk, Option.isSome_some, if_true]
      exact dictErase_map_fst k c1.cache
    refine ⟨by simp [hexp], fun h => absurd hexp h, fun _ => ?_⟩
    show k ∉ cacheKeys (c1.remove k)
    rw [hrm]
    exact nodup_not_mem_erase hinv1.2.1 k
  · have hE : (putEntry c.default_ttl v (some ttl) t0 : CacheEntry V).is_expired t1 =
        false := by
      simp [putEntry, CacheEntry.is_expired, hexp]
    have hE2 : ¬ ((putEntry c.default_ttl v (some ttl) t0 : CacheEntry V).is_expired t1 =
        true) := by
      simp [hE]
    rw [if_neg hE2]
    refine ⟨by simp [hexp], fun _ => ⟨?_, ?_⟩, fun h => absurd h hexp⟩
    · exact dictLookup_insert_self k (⟨v, t0, some ttl, 1⟩ : CacheEntry V) c1.cache
    · simp [List.getLast?_append_cons]

/-- Closed instantiation of `C2_put_get_ttl`: `ttl = 10`, written at `t0 = 0`,
read back at `t1 = 5` (fresh) and the expiry clause vacuous. -/
theorem C2_witness :
    (((BedrockCache.empty ℕ ℕ 2 1).put 0 7 (some 10) 0).get 0 5).1 =
        (if (5 : ℚ) - 0 > 10 then none else some 7) ∧
      (¬ (5 : ℚ) - 0 > 10 →
        dictLookup 0 (((BedrockCache.empty ℕ ℕ 2 1).put 0 7 (some 10) 0).get 0 5).2.cache =
            some ⟨7, 0, some 10, 1⟩ ∧
          (((BedrockCache.empty ℕ ℕ 2 1).put 0 7 (some 10) 0).get 0 5).2.access_order.getLast? =
            some 0) ∧
      ((5 : ℚ) - 0 > 10 →
        0 ∉ cacheKeys (((BedrockCache.empty ℕ ℕ 2 1).put 0 7 (some 10) 0).get 0 5).2) :=
  C2_put_get_ttl (BedrockCache.empty ℕ ℕ 2 1) ⟨by decide, by decide, by decide⟩
    (by decide) 0 7 10 0 5

/-!
### Retry handler (`retry_handler.py`)

Python exceptions are modelled by `PyError`; `ClientError` carries its
`response['Error']['Code']`, custom `exceptions.py` classes are separate
constructors (none of them subclasses of the builtin `ConnectionError` /
`TimeoutError`, matching their definitions as direct `BedrockError`
subclasses).
-/

/-- The error taxonomy visible to the retry handler: botocore `ClientError`
(with its error code), the builtin network errors, the custom exception
classes of `exceptions.py`, and anything else. -/
inductive PyError where
  | clientError (code : String)
  | connectionError (msg : String)
  | timeoutError (msg : String)
  | bedrockConfigurationError (msg : String)
  | bedrockAuthenticationError (msg : String)
  | bedrockModelError (msg : String)
  | bedrockTimeoutError (msg : String)
  | bedrockRateLimitError (msg : String)
  | bedrockServiceError (msg : String)
  | bedrockEmbeddingError (msg : String)
  | otherException (msg : String)
deriving Repr, DecidableEq

/-- Mirrors `RetryConfig` in `config.py`. -/
structure RetryConfig where
  max_attempts : Nat
  backoff_factor : ℚ
  max_backoff : ℚ
  retryable_errors : List String
deriving Repr, DecidableEq

/-- The `RetryConfig` defaults of `config.py`. -/
def defaultRetryConfig : RetryConfig :=
  { max_attempts := 3
    backoff_factor := 2
    max_backoff := 60
    retryable_errors :=
      ["ThrottlingException", "ServiceUnavailableException",
       "InternalServerException", "ModelTimeoutException",
       "ModelNotReadyException"] }

/-- Mirrors `BedrockRetryHandler.should_retry`: `ClientError` is retryable iff
its code is in the configured list or one of the five hard-coded transient
codes; the custom rate-limit and service errors and the builtin
connection/timeout errors are retryable; everything else is not. -/
def should_retry (cfg : RetryConfig) (e : PyError) : Bool :=
  match e with
  | .clientError code =>
    if cfg.retryable_errors.contains code then true
    else if code = "ThrottlingException" then true
    else if code = "ServiceUnavailableException" then true
    else if code = "InternalServerException" then true
    else if code = "ModelTimeoutException" then true
    else if code = "ModelNotReadyException" then true
    else false
  | .bedrockRateLimitError _ => true
  | .bedrockServiceError _ => true
  | .connectionError _ => true
  | .timeoutError _ => true
  | _ => false

/-- Mirrors `BedrockRetryHandler.calculate_backoff` with the random draw
`random.uniform(0.1, 0.3)` made an explicit parameter `u`:
`min(backoff_factor^attempt * (1 + u), max_backoff)` computed exactly as the
source does (base, additive jitter, then cap). -/
def calculate_backoff (cfg : RetryConfig) (attempt : Nat) (u : ℚ) : ℚ :=
  let base_delay := cfg.backoff_factor ^ attempt
  let jitter := u * base_delay
  let delay := base_delay + jitter
  min delay cfg.max_backoff

/-- One attempt's outcome: the operation either returns a value or raises. -/
def Attempt (α : Type) := Nat → Except PyError α

/-- Mirrors the `for attempt in range(max_attempts)` loop of
`execute_with_retry`, starting at a given attempt index. Returns the final
outcome together with the number of times the operation was invoked from this
point on. A non-retryable error or the last attempt's error is raised as-is
(`raise e` / `raise last_exception`). -/
def retryFrom {α : Type} (cfg : RetryConfig) (op : Attempt α) (attempt : Nat) :
    Except PyError α × Nat :=
  if h : attempt < cfg.max_attempts then
    match op attempt with
    | .ok v => (.ok v, 1)
    | .error e =>
      if ¬ should_retry cfg e then (.error e, 1)
      else if attempt = cfg.max_attempts - 1 then (.error e, 1)
      else
        let r := retryFrom cfg op (attempt + 1)
        (r.1, r.2 + 1)
  else (.error (.otherException "no attempts"), 0)
termination_by cfg.max_attempts - attempt

/-- Mirrors `BedrockRetryHandler.execute_with_retry`: run the loop from
attempt 0; result plus total invocation count. -/
def execute_with_retry {α : Type} (cfg : RetryConfig) (op : Attempt α) :
    Except PyError α × Nat :=
  retryFrom cfg op 0

theorem retryFrom_succeeds {α : Type} (cfg : RetryConfig) (op : Attempt α) (v : α) :
    ∀ j a, a + j < cfg.max_attempts →
      (∀ i, i < j → ∃ e, op (a + i) = .error e ∧ should_retry cfg e = true) →
      op (a + j) = .ok v →
      retryFrom cfg op a = (.ok v, j + 1) := by
  intro j
  induction j with
  | zero =>
    intro a hlt _ hok
    have hok' : op a = .ok v := by simpa using hok
    rw [retryFrom, dif_pos (by omega : a < cfg.max_attempts), hok']
  | succ j ih =>
    intro a hlt hfail hok
    obtain ⟨e, he, hre⟩ := hfail 0 (by omega)
    have he' : op a = .error e := by simpa using he
    rw [retryFrom, dif_pos (by omega : a < cfg.max_attempts), he']
    dsimp only
    rw [if_neg (by simp [hre]), if_neg (by omega : ¬ a = cfg.max_attempts - 1)]
    have hfail' : ∀ i, i < j → ∃ e2, op (a + 1 + i) = .error e2 ∧
        should_retry cfg e2 = true := by
      intro i hi
      have h := hfail (i + 1) (by omega)
      have harr : a + (i + 1) = a + 1 + i := by omega
      rwa [harr] at h
    have hok' : op (a + 1 + j) = .ok v := by
      have harr : a + (j + 1) = a + 1 + j := by omega
      rwa [harr] at hok
    rw [ih (a + 1) (by omega) hfail' hok']

/-- C3: an operation that fails with a retryable error on attempts
`0, …, k-1` (`k < max_attempts`) and succeeds on attempt `k` makes
`execute_with_retry` return the success value after exactly `k + 1`
invocations. -/
theorem C3_retry_succeeds_after_k_failures {α : Type} (cfg : RetryConfig)
    (op : Attempt α) (v : α) (k : Nat) (hk : k < cfg.max_attempts)
    (hfail : ∀ i, i < k → ∃ e, op i = .error e ∧ should_retry cfg e = true)
    (hok : op k = .ok v) :
    execute_with_retry cfg op = (.ok v, k + 1) := by
  unfold execute_with_retry
  exact retryFrom_succeeds cfg op v k 0 (by omega)
    (by intro i hi; simpa using hfail i hi) (by simpa using hok)

/-- Closed instantiation of `C3_retry_succeeds_after_k_failures`: two
throttling failures, then success, under the default config
(`max_attempts = 3`): result `"ok"` after 3 invocations. -/
theorem C3_witness :
    execute_with_retry defaultRetryConfig
        (fun n => if n < 2 then Except.error (PyError.clientError "ThrottlingException")
          else Except.ok "ok") =
      (Except.ok "ok", 3) :=
  C3_retry_succeeds_after_k_failures defaultRetryConfig
    (fun n => if n < 2 then Except.error (PyError.clientError "ThrottlingException")
      else Except.ok "ok")
    "ok" 2 (by decide)
    (fun i hi => ⟨PyError.clientError "ThrottlingException", by simp [hi], rfl⟩)
    (by rfl)

theorem retryFrom_all_fail {α : Type} (cfg : RetryConfig) (op : Attempt α)
    (err : Nat → PyError)
    (hall : ∀ i, i < cfg.max_attempts →
      op i = .error (err i) ∧ should_retry cfg (err i) = true) :
    ∀ j a, a + j = cfg.max_attempts - 1 → a < cfg.max_attempts →
      retryFrom cfg op a = (.error (err (cfg.max_attempts - 1)), j + 1) := by
  intro j
  induction j with
  | zero =>
    intro a ha hlt
    obtain ⟨he, hre⟩ := hall a hlt
    rw [retryFrom, dif_pos hlt, he]
    dsimp only
    rw [if_neg (by simp [hre]), if_pos (by omega : a = cfg.max_attempts - 1)]
    have haeq : a = cfg.max_attempts - 1 := by omega
    rw [haeq]
  | succ j ih =>
    intro a ha hlt
    obtain ⟨he, hre⟩ := hall a hlt
    rw [retryFrom, dif_pos hlt, he]
    dsimp only
    rw [if_neg (by simp [hre]), if_neg (by omega : ¬ a = cfg.max_attempts - 1)]
    rw [ih (a + 1) (by omega) (by omega)]

/-- C4: an operation whose first failure is non-retryable is invoked exactly
once and that error is raised as-is; and when every attempt fails with a
retryable error, the executor raises the error of the final attempt unmodified
after exactly `max_attempts` invocations. -/
theorem C4_nonretryable_once_and_last_error_raised {α : Type} (cfg : RetryConfig)
    (op : Attempt α) (e0 : PyError) (err : Nat → PyError)
    (hpos : 0 < cfg.max_attempts) :
    (op 0 = .error e0 → should_retry cfg e0 = false →
      execute_with_retry cfg op = (.error e0, 1)) ∧
    ((∀ i, i < cfg.max_attempts →
        op i = .error (err i) ∧ should_retry cfg (err i) = true) →
      execute_with_retry cfg op =
        (.error (err (cfg.max_attempts - 1)), cfg.max_attempts)) := by
  constructor
  · intro he hnr
    unfold execute_with_retry
    rw [retryFrom, dif_pos hpos, he]
    dsimp only
    rw [if_pos (by simp [hnr])]
  · intro hall
    unfold execute_with_retry
    have h := retryFrom_all_fail cfg op err hall (cfg.max_attempts - 1) 0
      (by omega) hpos
    rw [h]
    have : cfg.max_attempts - 1 + 1 = cfg.max_attempts := by omega
    rw [this]

/-- Closed instantiation of `C4_nonretryable_once_and_last_error_raised`:
a validation-style error propagates after one invocation; a persistent
rate-limit error is re-raised unmodified after all 3 default attempts. -/
theorem C4_witness :
    execute_with_retry defaultRetryConfig
        (fun _ => (Except.error (PyError.bedrockModelError "Invalid request") :
          Except PyError String)) =
      (Except.error (PyError.bedrockModelError "Invalid request"), 1) ∧
    execute_with_retry defaultRetryConfig
        (fun _ => (Except.error (PyError.bedrockRateLimitError "throttled") :
          Except PyError String)) =
      (Except.error (PyError.bedrockRateLimitError "throttled"), 3) :=
  ⟨(C4_nonretryable_once_and_last_error_raised defaultRetryConfig
      (fun _ => (Except.error (PyError.bedrockModelError "Invalid request") :
        Except PyError String))
      (PyError.bedrockModelError "Invalid request")
      (fun _ => PyError.bedrockModelError "Invalid request") (by decide)).1 rfl rfl,
   (C4_nonretryable_once_and_last_error_raised defaultRetryConfig
      (fun _ => (Except.error (PyError.bedrockRateLimitError "throttled") :
        Except PyError String))
      (PyError.bedrockRateLimitError "throttled")
      (fun _ => PyError.bedrockRateLimitError "throttled") (by decide)).2
     (fun _ _ => ⟨rfl, rfl⟩)⟩

/-!
### Provider error wrapping (`llm_provider.py`)
-/

/-- Mirrors the exception translation of `BedrockLLMProvider._invoke_model`
(its `except` clauses): a `ClientError` becomes `BedrockRateLimitError` only
for `ThrottlingException`, `BedrockTimeoutError` for `ModelTimeoutException`,
and `BedrockModelError` for every other code (including
`ServiceUnavailableException`, `InternalServerException`,
`ModelNotReadyException`, `ValidationException`, `AccessDeniedException`);
any non-`ClientError` exception (JSON decode errors, connection and timeout
errors, anything else) becomes `BedrockModelError`. -/
def invoke_model_wrap_error (model_id : String) (e : PyError) : PyError :=
  match e with
  | .clientError code =>
    if code = "ThrottlingException" then
      .bedrockRateLimitError ("Rate limit exceeded for model " ++ model_id)
    else if code = "ValidationException" then
      .bedrockModelError ("Invalid request for model " ++ model_id)
    else if code = "AccessDeniedException" then
      .bedrockModelError ("Access denied to model " ++ model_id)
    else if code = "ModelTimeoutException" then
      .bedrockTimeoutError ("Model " ++ model_id ++ " timed out")
    else
      .bedrockModelError ("Model " ++ model_id ++ " error " ++ code)
  | _ => .bedrockModelError ("Unexpected error invoking model " ++ model_id)

/-- C5 (bug evidence): `should_retry` classifies the transient `ClientError`
codes and the generic connectivity/timeout errors as retryable and
validation/access-denied as non-retryable, but `_invoke_model` rewraps every
`ClientError` except throttling into `BedrockModelError`/`BedrockTimeoutError`
— neither of which `should_retry` accepts — so a model-timeout,
service-unavailable, internal-server, model-not-ready or generic
connectivity/timeout failure arriving through the provider wrapper is *not*
retried: `execute_with_retry` raises it after a single invocation. -/
theorem C5_wrapper_defeats_retry_classification :
    should_retry defaultRetryConfig (.clientError "ThrottlingException") = true ∧
      should_retry defaultRetryConfig (.clientError "ServiceUnavailableException") = true ∧
      should_retry defaultRetryConfig (.clientError "InternalServerException") = true ∧
      should_retry defaultRetryConfig (.clientError "ModelTimeoutException") = true ∧
      should_retry defaultRetryConfig (.clientError "ModelNotReadyException") = true ∧
      should_retry defaultRetryConfig (.timeoutError "request timed out") = true ∧
      should_retry defaultRetryConfig (.connectionError "connection reset") = true ∧
      should_retry defaultRetryConfig (.clientError "ValidationException") = false ∧
      should_retry defaultRetryConfig (.clientError "AccessDeniedException") = false ∧
      should_retry defaultRetryConfig
        (invoke_model_wrap_error "m" (.clientError "ModelTimeoutException")) = false ∧
      should_retry defaultRetryConfig
        (invoke_model_wrap_error "m" (.clientError "ServiceUnavailableException")) = false ∧
      should_retry defaultRetryConfig
        (invoke_model_wrap_error "m" (.clientError "InternalServerException")) = false ∧
      should_retry defaultRetryConfig
        (invoke_model_wrap_error "m" (.clientError "ModelNotReadyException")) = false ∧
      should_retry defaultRetryConfig
        (invoke_model_wrap_error "m" (.timeoutError "request timed out")) = false ∧
      should_retry defaultRetryConfig
        (invoke_model_wrap_error "m" (.clientError "ThrottlingException")) = true ∧
      execute_with_retry defaultRetryConfig
        (fun _ => (Except.error
          (invoke_model_wrap_error "m" (.clientError "ModelTimeoutException")) :
            Except PyError String)) =
        (Except.error (.bedrockTimeoutError "Model m timed out"), 1) := by
  refine ⟨rfl, rfl, rfl, rfl, rfl, rfl, rfl, rfl, rfl, rfl, rfl, rfl, rfl, rfl, rfl, ?_⟩
  unfold execute_with_retry
  rw [retryFrom, dif_pos (by norm_num [defaultRetryConfig] :
    0 < defaultRetryConfig.max_attempts)]
  rfl

/-!
### Backoff (`calculate_backoff`)
-/

/-- C6 counterexample: with `backoff_factor = 2` and `max_backoff = 1`, the
attempt-1 delay is the cap `1`, strictly below `backoff_factor^1 = 2` — so the
claimed lower bound `delay ≥ backoffFactor^n` fails once the cap binds. -/
theorem C6_counterexample :
    calculate_backoff ⟨3, 2, 1, []⟩ 1 (1/10) <
      (⟨3, 2, 1, []⟩ : RetryConfig).backoff_factor ^ 1 := by
  norm_num [calculate_backoff, min_def]

/-- C6 (amended): the delay for attempt `n` equals
`min(backoffFactor^n + jitter, maxBackoff)` with jitter `u·backoffFactor^n`
drawn from `[0.1, 0.3]·backoffFactor^n`, strictly additive; consequently the
delay is at least `min(backoffFactor^n, maxBackoff)` (not `backoffFactor^n`
itself, which fails once the cap binds) and at most
`maxBackoff + 0.3·backoffFactor^n`. -/
theorem C6_backoff_formula_and_bounds (cfg : RetryConfig) (attempt : Nat) (u : ℚ)
    (hbf : 1 < cfg.backoff_factor) (hu1 : 1/10 ≤ u) (hu2 : u ≤ 3/10) :
    calculate_backoff cfg attempt u =
        min (cfg.backoff_factor ^ attempt + u * cfg.backoff_factor ^ attempt)
          cfg.max_backoff ∧
      min (cfg.backoff_factor ^ attempt) cfg.max_backoff ≤
        calculate_backoff cfg attempt u ∧
      calculate_backoff cfg attempt u ≤
        cfg.max_backoff + (3 / 10) * cfg.backoff_factor ^ attempt := by
  have hbase : (0 : ℚ) < cfg.backoff_factor ^ attempt :=
    pow_pos (lt_trans zero_lt_one hbf) attempt
  have hjit : (0 : ℚ) ≤ u * cfg.backoff_factor ^ attempt := by
    have hu0 : (0 : ℚ) ≤ u := le_trans (by norm_num) hu1
    exact mul_nonneg hu0 (le_of_lt hbase)
  refine ⟨rfl, ?_, ?_⟩
  · exact min_le_min (le_add_of_nonneg_right hjit) (le_refl _)
  · calc calculate_backoff cfg attempt u
        ≤ cfg.max_backoff := min_le_right _ _
      _ ≤ cfg.max_backoff + (3 / 10) * cfg.backoff_factor ^ attempt := by
          have : (0 : ℚ) ≤ (3 / 10) * cfg.backoff_factor ^ attempt := by
            positivity
          linarith

/-- Closed instantiation of `C6_backoff_formula_and_bounds` at the default
config, attempt 2, jitter fraction 1/5. -/
theorem C6_witness :
    calculate_backoff defaultRetryConfig 2 (1/5) =
        min (defaultRetryConfig.backoff_factor ^ 2 +
          (1/5) * defaultRetryConfig.backoff_factor ^ 2) defaultRetryConfig.max_backoff ∧
      min (defaultRetryConfig.backoff_factor ^ 2) defaultRetryConfig.max_backoff ≤
        calculate_backoff defaultRetryConfig 2 (1/5) ∧
      calculate_backoff defaultRetryConfig 2 (1/5) ≤
        defaultRetryConfig.max_backoff +
          (3 / 10) * defaultRetryConfig.backoff_factor ^ 2 :=
  C6_backoff_formula_and_bounds defaultRetryConfig 2 (1/5)
    (by norm_num [defaultRetryConfig]) (by norm_num) (by norm_num)

/-!
### Rate limiter (`BedrockRateLimiter` in `cache.py`)
-/

/-- Mirrors `BedrockRateLimiter` state: rate, burst capacity, current token
count and the last refill time. -/
structure BedrockRateLimiter where
  requests_per_second : ℚ
  burst_size : Nat
  tokens : ℚ
  last_update : ℚ

/-- What a single `acquire()` call does to its caller: proceed immediately
(one token consumed) or suspend for `wait_time` seconds (then tokens set
to 0). `acquire` is total — it never rejects, it only delays. -/
inductive AcquireOutcome where
  | proceed
  | waited (wait_time : ℚ)
deriving Repr, DecidableEq

/-- Mirrors `BedrockRateLimiter.acquire` with the clock explicit: refill
`elapsed * requests_per_second` tokens capped at `burst_size`, stamp
`last_update`; then if fewer than one token, wait
`(1 - tokens)/requests_per_second` and zero the bucket, else consume one. -/
def BedrockRateLimiter.acquire (s : BedrockRateLimiter) (now : ℚ) :
    AcquireOutcome × BedrockRateLimiter :=
  let elapsed := now - s.last_update
  let tokens1 := min ((s.burst_size : ℚ)) (s.tokens + elapsed * s.requests_per_second)
  if tokens1 < 1 then
    (.waited ((1 - tokens1) / s.requests_per_second),
      { s with tokens := 0, last_update := now })
  else
    (.proceed, { s with tokens := tokens1 - 1, last_update := now })

/-- C7: after any `acquire` the invariant `0 ≤ tokens ≤ burst_size` holds and
the refill timestamp is updated; the call never rejects: with at least one
token after the capped refill it proceeds, consuming exactly one token, and
otherwise it reports the wait `(1 - tokens)/requests_per_second` and zeroes
the bucket. -/
theorem C7_rate_limiter_acquire (s : BedrockRateLimiter) (now : ℚ) :
    (0 ≤ (s.acquire now).2.tokens ∧ (s.acquire now).2.tokens ≤ s.burst_size) ∧
      (s.acquire now).2.last_update = now ∧
      (1 ≤ min ((s.burst_size : ℚ))
          (s.tokens + (now - s.last_update) * s.requests_per_second) →
        (s.acquire now).1 = .proceed ∧
          (s.acquire now).2.tokens =
            min ((s.burst_size : ℚ))
              (s.tokens + (now - s.last_update) * s.requests_per_second) - 1) ∧
      (min ((s.burst_size : ℚ))
          (s.tokens + (now - s.last_update) * s.requests_per_second) < 1 →
        (s.acquire now).1 =
            .waited ((1 - min ((s.burst_size : ℚ))
              (s.tokens + (now - s.last_update) * s.requests_per_second)) /
                s.requests_per_second) ∧
          (s.acquire now).2.tokens = 0) := by
  unfold BedrockRateLimiter.acquire
  by_cases hlt : min ((s.burst_size : ℚ))
      (s.tokens + (now - s.last_update) * s.requests_per_second) < 1
  · rw [if_pos hlt]
    exact ⟨⟨le_refl 0, Nat.cast_nonneg s.burst_size⟩, rfl,
      fun hge => absurd hlt (not_lt.mpr hge), fun _ => ⟨rfl, rfl⟩⟩
  · rw [if_neg hlt]
    push_neg at hlt
    have hTburst : min ((s.burst_size : ℚ))
        (s.tokens + (now - s.last_update) * s.requests_per_second) ≤
        (s.burst_size : ℚ) := min_le_left _ _
    refine ⟨⟨?_, ?_⟩, rfl, fun _ => ⟨rfl, rfl⟩,
      fun hlt2 => absurd hlt2 (not_lt.mpr hlt)⟩
    · show (0 : ℚ) ≤ min ((s.burst_size : ℚ))
        (s.tokens + (now - s.last_update) * s.requests_per_second) - 1
      linarith
    · show min ((s.burst_size : ℚ))
        (s.tokens + (now - s.last_update) * s.requests_per_second) - 1 ≤
        (s.burst_size : ℚ)
      linarith

/-- Closed instantiation of `C7_rate_limiter_acquire`: rate 2/s, burst 5,
3 tokens at time 0, acquiring at time 1 (refills to capacity 5, proceeds). -/
theorem C7_witness :
    (0 ≤ ((⟨2, 5, 3, 0⟩ : BedrockRateLimiter).acquire 1).2.tokens ∧
        ((⟨2, 5, 3, 0⟩ : BedrockRateLimiter).acquire 1).2.tokens ≤ (5 : Nat)) ∧
      ((⟨2, 5, 3, 0⟩ : BedrockRateLimiter).acquire 1).2.last_update = 1 ∧
      (1 ≤ min ((((5 : Nat)) : ℚ)) (3 + ((1 : ℚ) - 0) * 2) →
        ((⟨2, 5, 3, 0⟩ : BedrockRateLimiter).acquire 1).1 = .proceed ∧
          ((⟨2, 5, 3, 0⟩ : BedrockRateLimiter).acquire 1).2.tokens =
            min ((((5 : Nat)) : ℚ)) (3 + ((1 : ℚ) - 0) * 2) - 1) ∧
      (min ((((5 : Nat)) : ℚ)) (3 + ((1 : ℚ) - 0) * 2) < 1 →
        ((⟨2, 5, 3, 0⟩ : BedrockRateLimiter).acquire 1).1 =
            .waited ((1 - min ((((5 : Nat)) : ℚ)) (3 + ((1 : ℚ) - 0) * 2)) / 2) ∧
          ((⟨2, 5, 3, 0⟩ : BedrockRateLimiter).acquire 1).2.tokens = 0) :=
  C7_rate_limiter_acquire ⟨2, 5, 3, 0⟩ 1

/-!
### Batch processor (`BedrockBatchProcessor._process_group` in `cache.py`)
-/

/-- The resolution state of an `asyncio.Future`: pending, or done with a
result (`set_result`) or an exception (`set_exception`). -/
inductive FutureState (β : Type) where
  | pending
  | value (b : β)
  | failed (e : PyError)

/-- The error object built for under-returning batches. -/
def insufficientResultsError : PyError :=
  .otherException "Batch processing returned insufficient results"

/-- Mirrors the success path of `_process_group`: `for i, request in
enumerate(requests)`, set future `i` to `results[i]` when `i < len(results)`,
else to the insufficient-results exception. `i` is the running enumeration
index. -/
def setGroupResults {β : Type} (results : List β) : Nat → List (FutureState β) →
    List (FutureState β)
  | _, [] => []
  | i, _ :: rest =>
    (match results.get? i with
      | some r => FutureState.value r
      | none => FutureState.failed insufficientResultsError) ::
      setGroupResults results (i + 1) rest

/-- Mirrors the `except` path of `_process_group`: every future not yet done
is failed with the raised exception (`if not request['future'].done()`). -/
def failGroup {β : Type} (e : PyError) (fs : List (FutureState β)) :
    List (FutureState β) :=
  fs.map (fun f => match f with
    | FutureState.pending => FutureState.failed e
    | done => done)

/-- Mirrors `_process_group`: run the batch operation on the group's payloads;
on a result list fan it out positionally, on an exception fail every pending
future with it. -/
def process_group {β : Type} (outcome : Except PyError (List β))
    (fs : List (FutureState β)) : List (FutureState β) :=
  match outcome with
  | .ok results => setGroupResults results 0 fs
  | .error e => failGroup e fs

theorem setGroupResults_get {β : Type} (results : List β) :
    ∀ (fs : List (FutureState β)) (i j : Nat), j < fs.length →
      (setGroupResults results i fs).get? j =
        some (match results.get? (i + j) with
          | some r => FutureState.value r
          | none => FutureState.failed insufficientResultsError) := by
  intro fs
  induction fs with
  | nil => intro i j h; simp at h
  | cons f rest ih =>
    intro i j h
    cases j with
    | zero => simp [setGroupResults]
    | succ j' =>
      have h' : j' < rest.length := by simpa using h
      have := ih (i + 1) j' h'
      simpa [setGroupResults, Nat.add_assoc, Nat.add_comm 1 j'] using this

theorem setGroupResults_length {β : Type} (results : List β) :
    ∀ (fs : List (FutureState β)) (i : Nat),
      (setGroupResults results i fs).length = fs.length := by
  intro fs
  induction fs with
  | nil => intro i; rfl
  | cons f rest ih => intro i; simp [setGroupResults, ih]

theorem setGroupResults_resolved {β : Type} (results : List β) :
    ∀ (fs : List (FutureState β)) (i : Nat), ∀ g ∈ setGroupResults results i fs,
      (∃ b, g = FutureState.value b) ∨ (∃ e2, g = FutureState.failed e2) := by
  intro fs
  induction fs with
  | nil => intro i g hg; simp [setGroupResults] at hg
  | cons f rest ih =>
    intro i g hg
    simp only [setGroupResults, List.mem_cons] at hg
    rcases hg with hg | hg
    · cases hres : results.get? i with
      | some r => rw [hres] at hg; exact Or.inl ⟨r, hg⟩
      | none => rw [hres] at hg; exact Or.inr ⟨insufficientResultsError, hg⟩
    · exact ih (i + 1) g hg

/-- C8: with all submitted futures pending, `_process_group` resolves every
future exactly once, with exactly one of a value or an error: when the batch
operation returns `results`, future `i` gets `results[i]` if `i` is within
range and the insufficient-results error otherwise; when the batch operation
raises `e`, every future gets `e`; in all cases no future stays pending and
the future list keeps its length (one resolution per request). -/
theorem C8_batch_result_delivery {β : Type} (results : List β) (e : PyError)
    (fs : List (FutureState β)) (hp : ∀ f ∈ fs, f = FutureState.pending) :
    ((process_group (.ok results) fs).length = fs.length ∧
      ∀ j, j < fs.length →
        (process_group (.ok results) fs).get? j =
          some (if h : j < results.length then FutureState.value (results.get ⟨j, h⟩)
            else FutureState.failed insufficientResultsError)) ∧
      ((process_group (.error e) fs).length = fs.length ∧
        ∀ j, j < fs.length →
          (process_group (.error e) fs).get? j = some (FutureState.failed e)) ∧
      (∀ o, ∀ g ∈ process_group o fs,
        (∃ b, g = FutureState.value b) ∨ (∃ e2, g = FutureState.failed e2)) := by
  refine ⟨⟨setGroupResults_length results fs 0, ?_⟩,
    ⟨by simp [process_group, failGroup], ?_⟩, ?_⟩
  · intro j hj
    rw [show process_group (.ok results) fs = setGroupResults results 0 fs from rfl]
    rw [setGroupResults_get results fs 0 j hj]
    by_cases h : j < results.length
    · rw [show (0 : Nat) + j = j from Nat.zero_add j, List.get?_eq_get h, dif_pos h]
    · rw [show (0 : Nat) + j = j from Nat.zero_add j,
        List.get?_eq_none.mpr (by omega), dif_neg h]
  · intro j hj
    show (failGroup e fs).get? j = some (FutureState.failed e)
    have hf := hp (fs.get ⟨j, hj⟩) (List.get_mem fs j hj)
    unfold failGroup
    rw [List.get?_map, List.get?_eq_get hj, hf]
    rfl
  · intro o g hg
    cases o with
    | ok results2 =>
      rw [show process_group (.ok results2) fs = setGroupResults results2 0 fs from rfl] at hg
      exact setGroupResults_resolved results2 fs 0 g hg
    | error e2 =>
      rw [show process_group (.error e2) fs = failGroup e2 fs from rfl] at hg
      obtain ⟨x, hx, hgx⟩ := List.mem_map.mp hg
      cases x with
      | pending => exact Or.inr ⟨e2, hgx.symm⟩
      | value b => exact Or.inl ⟨b, hgx.symm⟩
      | failed e3 => exact Or.inr ⟨e3, hgx.symm⟩

/-- Closed instantiation of `C8_batch_result_delivery`: three pending
requests, a batch returning two results (third future gets the
insufficient-results error), and a raising batch (all three get the error). -/
theorem C8_witness :
    ((process_group (.ok [10, 20]) (List.replicate 3 (FutureState.pending :
        FutureState ℕ))).length = (List.replicate 3 (FutureState.pending :
          FutureState ℕ)).length ∧
      ∀ j, j < (List.replicate 3 (FutureState.pending : FutureState ℕ)).length →
        (process_group (.ok [10, 20]) (List.replicate 3 (FutureState.pending :
          FutureState ℕ))).get? j =
          some (if h : j < ([10, 20] : List ℕ).length then
              FutureState.value (([10, 20] : List ℕ).get ⟨j, h⟩)
            else FutureState.failed insufficientResultsError)) ∧
      ((process_group (.error (.otherException "boom"))
          (List.replicate 3 (FutureState.pending : FutureState ℕ))).length =
          (List.replicate 3 (FutureState.pending : FutureState ℕ)).length ∧
        ∀ j, j < (List.replicate 3 (FutureState.pending : FutureState ℕ)).length →
          (process_group (.error (.otherException "boom"))
            (List.replicate 3 (FutureState.pending : FutureState ℕ))).get? j =
            some (FutureState.failed (.otherException "boom"))) ∧
      (∀ o, ∀ g ∈ process_group o (List.replicate 3 (FutureState.pending :
          FutureState ℕ)),
        (∃ b, g = FutureState.value b) ∨ (∃ e2, g = FutureState.failed e2)) :=
  C8_batch_result_delivery [10, 20] (.otherException "boom")
    (List.replicate 3 FutureState.pending)
    (fun _ hf => List.eq_of_mem_replicate hf)

/-!
### Embedding provider fallback (`embedding_provider.py`) and LLM text
extraction (`llm_provider.py`)
-/

/-- Mirrors `BedrockEmbeddingProvider._process_batch`: each text's embedding
goes through the retry handler; on success it is appended, on *any* exception
the error is logged and a zero vector of the embedding dimension is appended
instead ("Return zero vector as fallback"). -/
def process_batch {σ : Type} (dim : Nat) (embed : σ → Except PyError (List ℚ))
    (texts : List σ) : List (List ℚ) :=
  texts.map (fun t =>
    match embed t with
    | .ok emb => emb
    | .error _ => List.replicate dim 0)

/-- A content block of a Claude response body (only its type tag and text
matter to `_extract_text_from_response`). -/
inductive ContentBlock where
  | text (s : String)
  | other
deriving Repr, DecidableEq

/-- The parts of a Claude response body read by
`_extract_text_from_response`: the optional `content` block list and the
optional top-level `text` field. -/
structure ClaudeResponse where
  content : Option (List ContentBlock)
  text_field : Option String
deriving Repr, DecidableEq

/-- Mirrors `BedrockLLMProvider._extract_text_from_response`: return the first
`text`-typed content block; otherwise fall back to the top-level `text`
field; otherwise log a warning and return the empty string. -/
def extract_text_from_response (r : ClaudeResponse) : String :=
  let fallback : String :=
    match r.text_field with
    | some s => s
    | none => ""
  match r.content with
  | some blocks =>
    match blocks.findSome? (fun b => match b with
      | ContentBlock.text s => some s
      | ContentBlock.other => none) with
    | some s => s
    | none => fallback
  | none => fallback

/-- C9 counterexample: a text whose remote embedding call fails (after
retries) does *not* surface the error — `_process_batch` returns a fabricated
zero vector of the embedding dimension for it; likewise a response with no
text content yields `""` rather than an error. This refutes "the call
surfaces that error to the caller rather than returning a substitute value". -/
theorem C9_counterexample :
    process_batch 2
        (fun _ => .error (.bedrockEmbeddingError "No embedding in response"))
        ["some text"] = [[0, 0]] ∧
      extract_text_from_response ⟨some [ContentBlock.other], none⟩ = "" :=
  ⟨rfl, rfl⟩

/-- C9 (amended): `complete` does surface the final retry error unmodified
(the retry-wrapped call is not caught), but `embedTexts` does not: for every
text whose retried embedding call ends in an error, `_process_batch`
swallows the error and emits `[0.0] * embedding_dimension` in that position,
while successful positions carry their embeddings. -/
theorem C9_error_surfacing_and_zero_vector_fallback {σ : Type} (dim : Nat)
    (embed : σ → Except PyError (List ℚ)) (texts : List σ) :
    (process_batch dim embed texts).length = texts.length ∧
      (∀ i (hi : i < texts.length),
        (process_batch dim embed texts).get? i =
          some (match embed (texts.get ⟨i, hi⟩) with
            | .ok emb => emb
            | .error _ => List.replicate dim 0)) := by
  refine ⟨by simp [process_batch], ?_⟩
  intro i hi
  unfold process_batch
  rw [List.get?_map, List.get?_eq_get hi]
  rfl

/-- Closed instantiation of `C9_error_surfacing_and_zero_vector_fallback`:
two texts, the first failing (zero vector), the second succeeding. -/
theorem C9_witness :
    (process_batch 2
        (fun t => if t = "bad" then .error (.bedrockEmbeddingError "fail")
          else .ok [1, 2])
        ["bad", "good"]).length = (["bad", "good"] : List String).length ∧
      (∀ i (hi : i < (["bad", "good"] : List String).length),
        (process_batch 2
          (fun t => if t = "bad" then .error (.bedrockEmbeddingError "fail")
            else .ok [1, 2])
          ["bad", "good"]).get? i =
          some (match (fun t => if t = "bad" then
              (.error (.bedrockEmbeddingError "fail") : Except PyError (List ℚ))
            else .ok [1, 2]) ((["bad", "good"] : List String).get ⟨i, hi⟩) with
            | .ok emb => emb
            | .error _ => List.replicate 2 0)) :=
  C9_error_surfacing_and_zero_vector_fallback 2
    (fun t => if t = "bad" then .error (.bedrockEmbeddingError "fail")
      else .ok [1, 2])
    ["bad", "good"]

/-!
### Performance monitor (`BedrockPerformanceMonitor` in `cache.py`)
-/

/-- Mirrors the `self.metrics` counter dict of `BedrockPerformanceMonitor`. -/
structure PerfMetrics where
  total_requests : Nat
  successful_requests : Nat
  failed_requests : Nat
  total_response_time : ℚ
  cache_hits : Nat
  cache_misses : Nat
  rate_limit_hits : Nat
deriving Repr, DecidableEq

/-- Mirrors `BedrockPerformanceMonitor` state: the counters plus the bounded
window of recent response times. -/
structure BedrockPerformanceMonitor where
  metrics : PerfMetrics
  request_times : List ℚ
  max_history : Nat

/-- The counters dict as an ordered key/value list (`self.metrics.copy()`). -/
def metricsPairs (m : PerfMetrics) : List (String × ℚ) :=
  [("total_requests", m.total_requests),
   ("successful_requests", m.successful_requests),
   ("failed_requests", m.failed_requests),
   ("total_response_time", m.total_response_time),
   ("cache_hits", m.cache_hits),
   ("cache_misses", m.cache_misses),
   ("rate_limit_hits", m.rate_limit_hits)]

/-- Python `int(q)`: truncation toward zero. -/
def pyIntTrunc (q : ℚ) : ℤ :=
  if q < 0 then Int.ceil q else Int.floor q

/-- The index computed by `BedrockPerformanceMonitor._percentile`:
`int(len(sorted_list) * percentile)`, clamped to `len - 1` when it would run
past the end. -/
def percentile_index (len : Nat) (p : ℚ) : ℤ :=
  let index := pyIntTrunc ((len : ℚ) * p)
  if index ≥ (len : ℤ) then (len : ℤ) - 1 else index

/-- Mirrors `BedrockPerformanceMonitor._percentile`: `0.0` on an empty list,
otherwise the element at the clamped index. -/
def percentile (sorted_list : List ℚ) (p : ℚ) : ℚ :=
  if sorted_list.isEmpty then 0
  else sorted_list.getD (percentile_index sorted_list.length p).toNat 0

/-- Mirrors `BedrockPerformanceMonitor.get_stats`: with no requests recorded,
just a copy of the raw counters (no division is performed); otherwise the
counters plus `success_rate`, `average_response_time`, `cache_hit_rate`, and
— only when the latency window is non-empty — the p50/p95/p99 percentiles of
the sorted window. -/
def get_stats (mon : BedrockPerformanceMonitor) : List (String × ℚ) :=
  let total := mon.metrics.total_requests
  if total = 0 then metricsPairs mon.metrics
  else
    let stats := metricsPairs mon.metrics ++
      [("success_rate", (mon.metrics.successful_requests : ℚ) / (total : ℚ)),
       ("average_response_time", mon.metrics.total_response_time / (total : ℚ)),
       ("cache_hit_rate", (mon.metrics.cache_hits : ℚ) / (total : ℚ))]
    if mon.request_times.isEmpty then stats
    else
      let sorted_times := mon.request_times.insertionSort (· ≤ ·)
      stats ++
        [("p50_response_time", percentile sorted_times (1 / 2)),
         ("p95_response_time", percentile sorted_times (19 / 20)),
         ("p99_response_time", percentile sorted_times (99 / 100))]

/-- C10: `get_stats` is total: with `total_requests = 0` it returns exactly
the raw counters — none of the derived (divided) fields are present; and the
percentile helper returns `0.0` on an empty window and otherwise clamps its
index strictly inside the list, never reading past the end. -/
theorem C10_get_stats_total_and_percentile_clamped
    (mon : BedrockPerformanceMonitor) (l : List ℚ) (p : ℚ) :
    (mon.metrics.total_requests = 0 →
      get_stats mon = metricsPairs mon.metrics ∧
        (get_stats mon).map Prod.fst =
          ["total_requests", "successful_requests", "failed_requests",
           "total_response_time", "cache_hits", "cache_misses",
           "rate_limit_hits"]) ∧
      percentile [] p = 0 ∧
      (l ≠ [] → 0 ≤ p →
        (percentile_index l.length p).toNat < l.length ∧
          percentile l p = l.getD (percentile_index l.length p).toNat 0) := by
  refine ⟨?_, rfl, ?_⟩
  · intro h0
    constructor
    · unfold get_stats
      rw [if_pos h0]
    · unfold get_stats
      rw [if_pos h0]
      rfl
  · intro hne hp
    have hlen : 0 < l.length := List.length_pos.mpr hne
    have h0 : (0 : ℚ) ≤ (l.length : ℚ) * p :=
      mul_nonneg (Nat.cast_nonneg l.length) hp
    have htr : pyIntTrunc ((l.length : ℚ) * p) = Int.floor ((l.length : ℚ) * p) := by
      unfold pyIntTrunc
      rw [if_neg (not_lt.mpr h0)]
    have hnn : 0 ≤ pyIntTrunc ((l.length : ℚ) * p) := by
      rw [htr]
      exact Int.floor_nonneg.mpr h0
    have hbound : 0 ≤ percentile_index l.length p ∧
        percentile_index l.length p < (l.length : ℤ) := by
      unfold percentile_index
      by_cases hc : pyIntTrunc ((l.length : ℚ) * p) ≥ (l.length : ℤ)
      · rw [if_pos hc]
        omega
      · rw [if_neg hc]
        exact ⟨hnn, by omega⟩
    constructor
    · omega
    · unfold percentile
      rw [if_neg (by simpa [List.isEmpty_iff] using hne)]

/-- Closed instantiation of `C10_get_stats_total_and_percentile_clamped`:
a fresh monitor (all counters zero), window `[3, 1, 2]`, `p = 99/100`. -/
theorem C10_witness :
    ((⟨⟨0, 0, 0, 0, 0, 0, 0⟩, [], 1000⟩ :
        BedrockPerformanceMonitor).metrics.total_requests = 0 →
      get_stats ⟨⟨0, 0, 0, 0, 0, 0, 0⟩, [], 1000⟩ =
          metricsPairs (⟨⟨0, 0, 0, 0, 0, 0, 0⟩, [], 1000⟩ :
            BedrockPerformanceMonitor).metrics ∧
        (get_stats ⟨⟨0, 0, 0, 0, 0, 0, 0⟩, [], 1000⟩).map Prod.fst =
          ["total_requests", "successful_requests", "failed_requests",
           "total_response_time", "cache_hits", "cache_misses",
           "rate_limit_hits"]) ∧
      percentile [] (99 / 100) = 0 ∧
      (([3, 1, 2] : List ℚ) ≠ [] → (0 : ℚ) ≤ 99 / 100 →
        (percentile_index ([3, 1, 2] : List ℚ).length (99 / 100)).toNat <
            ([3, 1, 2] : List ℚ).length ∧
          percentile [3, 1, 2] (99 / 100) =
            ([3, 1, 2] : List ℚ).getD
              (percentile_index ([3, 1, 2] : List ℚ).length (99 / 100)).toNat 0) :=
  C10_get_stats_total_and_percentile_clamped ⟨⟨0, 0, 0, 0, 0, 0, 0⟩, [], 1000⟩
    [3, 1, 2] (99 / 100)
